import Mathlib

/-!
Shallow embedding of the task coordination core of the CreditRisk-AI-Suite
repository (`src/agents/task_definitions.py` and `src/agents/base_agent.py`).

Conventions of the embedding:
* Python dicts keyed by task id become insertion-ordered association lists
  `List (String × _)`; `dict[k] = v` replaces the value in place when the key
  exists and appends otherwise.
* The opaque behavior of a concrete task instance (its
  `validate_prerequisites` result and the outcome of `execute`) is carried as
  data inside `TaskDefinition` (`prereq`, `body`), and `creatable` records
  whether `TaskCoordinator._create_task_instance` handles the task type
  (it raises `ValueError` for task types it does not know).
* `datetime.now()` timestamps become an abstract `Nat` clock.
* A Python exception escaping a function is an `Except.error`; exceptions
  caught inside a function are handled in the translation of that function.
* The recursive `dfs` inside `TaskCoordinator.resolve_dependencies` is given
  explicit fuel `n + 1` (`n` = number of registered tasks); the development
  proves this fuel is never exhausted, so the fuel-timeout branch is dead code
  of the model, not observable behavior.
* The thread pool of `execute_workflow` (futures submitted per level, then
  gathered in submission order) is modeled by running each level's tasks
  sequentially in submission order, and then handling raised exceptions in the
  gather loop, which is where `_cancel_dependent_tasks` is invoked.
-/

/-- `TaskStatus` enum from `task_definitions.py`. -/
inductive TaskStatus where
  | pending
  | running
  | completed
  | failed
  | cancelled
  | retrying
deriving DecidableEq, Repr

/-- Python values appearing in result-data / success-criteria dictionaries. -/
inductive Value where
  | s (v : String)
  | i (v : Int)
  | b (v : Bool)
deriving DecidableEq, Repr

/-- The fields of `AgentResult` (from `base_agent.py`) that the coordinator
reads and writes: `success`, `data`, `error`. -/
structure AgentResultM where
  success : Bool
  data : List (String × Value)
  error : Option String
deriving DecidableEq, Repr

/-- Outcome of one call of a task instance's `execute` method: either it
returns an `AgentResult`, or it raises an exception with a message. -/
inductive BodyOutcome where
  | result (r : AgentResultM)
  | raises (msg : String)
deriving DecidableEq, Repr

/-- The fields of `TaskDefinition` the coordinator consults, together with the
abstracted behavior of the task instance built from it (see module header). -/
structure TaskDefinition where
  dependencies : List String
  success_criteria : List (String × Value)
  creatable : Bool
  prereq : Bool
  body : BodyOutcome
deriving DecidableEq, Repr

/-- `TaskExecution` record from `task_definitions.py` (the fields the
coordinator mutates). -/
structure TaskExecution where
  task_definition : TaskDefinition
  status : TaskStatus := .pending
  start_time : Option Nat := none
  end_time : Option Nat := none
  result : Option AgentResultM := none
  error : Option String := none
deriving DecidableEq, Repr

/-- `BaseTask.validate_result`: a result fails validation when
`result.success` is false, or when some success criterion key that is present
in `result.data` differs from the expected value; criteria keys absent from
the data are not checked. -/
def validate_result (criteria : List (String × Value)) (result : AgentResultM) :
    Bool :=
  if result.success = false then
    false
  else
    criteria.all fun kv =>
      match List.lookup kv.1 result.data with
      | some w => decide (w = kv.2)
      | none => true

/-- A fresh `TaskExecution` as built by `TaskCoordinator.add_task`. -/
def mkExecution (td : TaskDefinition) : TaskExecution :=
  { task_definition := td }

/-- `TaskCoordinator.add_task`: `self.tasks[task_id] = TaskExecution(...)` on
the insertion-ordered task dict (replace in place or append). -/
def add_task (tasks : List (String × TaskExecution)) (task_id : String)
    (td : TaskDefinition) : List (String × TaskExecution) :=
  if (List.lookup task_id tasks).isSome then
    tasks.map fun t => if t.1 = task_id then (t.1, mkExecution td) else t
  else
    tasks ++ [(task_id, mkExecution td)]

/-- The result-mutation step of `execute_task`: when the result reports
success but fails `validate_result`, its success flag is cleared and the
validation error recorded (`result.success = False`,
`result.error = "Task result validation failed"`). -/
def apply_validation (criteria : List (String × Value)) (r : AgentResultM) :
    AgentResultM :=
  if r.success = true ∧ validate_result criteria r = false then
    { r with
      success := false,
      error := some "Task result validation failed" }
  else r

/-- The body-handling part of `execute_task` after the record was marked
running (`te1`): a raised exception is caught and recorded as a failure;
a returned result is validated and the record completed or failed. -/
def run_body (criteria : List (String × Value)) (te1 : TaskExecution) :
    BodyOutcome → TaskExecution
  | .raises msg => { te1 with status := TaskStatus.failed, error := some msg }
  | .result r =>
      let r1 := apply_validation criteria r
      if r1.success = true then
        { te1 with status := TaskStatus.completed, result := some r1 }
      else
        { te1 with status := TaskStatus.failed, result := some r1,
                   error := r1.error }

/-- `TaskCoordinator.execute_task` on one `TaskExecution` record, at abstract
clock time `clock`.  Returns `.error` exactly when the Python function lets an
exception escape, i.e. when `_create_task_instance` raises for an unhandled
task type (this happens before the status is set to RUNNING). -/
def execute_task (te : TaskExecution) (clock : Nat) :
    Except String TaskExecution :=
  if te.task_definition.creatable = false then
    .error "Unknown task type"
  else
    let te1 := { te with status := TaskStatus.running, start_time := some clock }
    let te2 :=
      if te.task_definition.prereq = false then
        { te1 with status := TaskStatus.failed,
                   error := some "Task prerequisites not met" }
      else
        run_body te.task_definition.success_criteria te1
          te.task_definition.body
    .ok { te2 with end_time := some (clock + 1) }

/-- `TaskCoordinator._cancel_dependent_tasks`: every still-pending task whose
dependency list contains the failed task id is marked cancelled. -/
def cancel_dependent_tasks (failed_task_id : String)
    (tasks : List (String × TaskExecution)) : List (String × TaskExecution) :=
  tasks.map fun t =>
    if failed_task_id ∈ t.2.task_definition.dependencies ∧
        t.2.status = TaskStatus.pending then
      (t.1, { t.2 with status := TaskStatus.cancelled })
    else t

/-- Outcome of one invocation of the operation retried by
`BaseAgent._retry_operation`. -/
inductive AttemptOutcome where
  | ok
  | fail
  | exn (msg : String)
deriving DecidableEq, Repr

/-- Observable trace of `BaseAgent._retry_operation`: the 0-based attempt
numbers at which the operation was invoked (in order), the delays slept
between attempts (in order), and whether the returned result was a success. -/
structure RetryTrace where
  invoked : List Nat
  sleeps : List ℚ
  success : Bool
deriving DecidableEq, Repr

/-- Body of the `for attempt in range(max_retries + 1)` loop of
`BaseAgent._retry_operation`, as a recursion on the remaining iteration count
(`fuel` = `max_retries + 1 - attempt` at every call). -/
def retry_operation_from (max_retries : Nat) (retry_delay retry_backoff : ℚ)
    (outcome : Nat → AttemptOutcome) : Nat → Nat → RetryTrace
  | 0, _ => ⟨[], [], false⟩
  | fuel + 1, attempt =>
    match outcome attempt with
    | .ok => ⟨[attempt], [], true⟩
    | .fail =>
        if attempt < max_retries then
          let t := retry_operation_from max_retries retry_delay retry_backoff
            outcome fuel (attempt + 1)
          ⟨attempt :: t.invoked,
           retry_delay * retry_backoff ^ attempt :: t.sleeps, t.success⟩
        else
          ⟨[attempt], [], false⟩
    | .exn _ =>
        if attempt < max_retries then
          let t := retry_operation_from max_retries retry_delay retry_backoff
            outcome fuel (attempt + 1)
          ⟨attempt :: t.invoked,
           retry_delay * retry_backoff ^ attempt :: t.sleeps, t.success⟩
        else
          ⟨[attempt], [], false⟩

/-- `BaseAgent._retry_operation` for a config with budget `max_retries`, base
delay `retry_delay` and multiplier `retry_backoff` (floats modeled as ℚ),
where `outcome k` is what the `k`-th invocation of the operation does. -/
def retry_operation (max_retries : Nat) (retry_delay retry_backoff : ℚ)
    (outcome : Nat → AttemptOutcome) : RetryTrace :=
  retry_operation_from max_retries retry_delay retry_backoff outcome
    (max_retries + 1) 0

/-- `AgentConfig.__post_init__` validation (`base_agent.py`): `max_retries`
is non-negative by the `Nat` type; `retry_delay` must be non-negative.
(`retry_backoff` is not validated.) -/
def agent_config_valid (retry_delay : ℚ) : Prop := 0 ≤ retry_delay

/-- Errors that `resolve_dependencies` can raise.  `circular node` is the
`ValueError(f"Circular dependency detected: {node}")` of the source;
`fuelExhausted` is the artificial out-of-fuel branch of the model (proved
unreachable below). -/
inductive GraphError where
  | circular (node : String)
  | fuelExhausted
deriving DecidableEq, Repr

/-- State threaded through the `dfs` of `resolve_dependencies`: the `visited`
set (kept as the insertion-ordered list of first completions) and the
`execution_levels` list of lists. -/
structure DfsState where
  visited : List String
  levels : List (List String)
deriving DecidableEq, Repr

/-- `while len(execution_levels) <= level: execution_levels.append([])`
followed by `execution_levels[level].append(node)`. -/
def appendAt : List (List String) → Nat → String → List (List String)
  | [], 0, node => [[node]]
  | [], n + 1, node => [] :: appendAt [] n node
  | l :: ls, 0, node => (l ++ [node]) :: ls
  | l :: ls, n + 1, node => l :: appendAt ls n node

/-- The registered task ids (keys of `self.tasks` / of the dependency
graph dict). -/
def ids (graph : List (String × List String)) : List String :=
  graph.map Prod.fst

/-- `dependency_graph.get(node, [])`. -/
def depsOf (graph : List (String × List String)) (node : String) :
    List String :=
  (List.lookup node graph).getD []

/-- The recursive `dfs(node, level)` of `resolve_dependencies`.  `temp` is the
`temp_visited` in-progress set, kept as the list of nodes on the current
recursion stack in order.  Fuel is always called with
`temp.length + fuel = (number of tasks) + 1`. -/
def dfs (graph : List (String × List String)) :
    Nat → String → Nat → List String → DfsState → Except GraphError DfsState
  | 0, _, _, _, _ => .error .fuelExhausted
  | fuel + 1, node, level, temp, st =>
    if node ∈ temp then
      .error (.circular node)
    else if node ∈ st.visited then
      .ok st
    else
      match (depsOf graph node).foldlM
          (fun s dep =>
            if dep ∈ ids graph then
              dfs graph fuel dep (level + 1) (temp ++ [node]) s
            else
              .ok s)
          st with
      | .error e => .error e
      | .ok st' =>
          .ok { visited := st'.visited ++ [node],
                levels := appendAt st'.levels level node }

/-- `TaskCoordinator.resolve_dependencies` on the dependency graph dict
(`task_id → dependencies`). -/
def resolve_graph (graph : List (String × List String)) :
    Except GraphError (List (List String)) :=
  match (ids graph).foldlM
      (fun s task_id =>
        if task_id ∈ s.visited then
          .ok s
        else
          dfs graph (graph.length + 1) task_id 0 [] s)
      (⟨[], []⟩ : DfsState) with
  | .error e => .error e
  | .ok st => .ok st.levels

/-- `TaskCoordinator.resolve_dependencies`: builds the dependency graph from
the registered task definitions and levels it. -/
def resolve_dependencies (tasks : List (String × TaskDefinition)) :
    Except GraphError (List (List String)) :=
  resolve_graph (tasks.map fun t => (t.1, t.2.dependencies))

/-- State of a workflow run: the task records, the log of task invocations
(each with the snapshot of all task statuses at the moment `execute_task` was
entered for it), and the clock. -/
structure WorkflowState where
  tasks : List (String × TaskExecution)
  events : List (String × List (String × TaskStatus))
  clock : Nat
deriving DecidableEq, Repr

/-- The status of every registered task. -/
def statusMap (tasks : List (String × TaskExecution)) :
    List (String × TaskStatus) :=
  tasks.map fun t => (t.1, t.2.status)

/-- In-place update of one task's record (`self.tasks[task_id]` mutation). -/
def setTask (tasks : List (String × TaskExecution)) (task_id : String)
    (te : TaskExecution) : List (String × TaskExecution) :=
  tasks.map fun t => if t.1 = task_id then (t.1, te) else t

/-- One worker of a level: runs `execute_task` for `task_id`.  Returns the
updated workflow state, plus `some task_id` when the call raised (unknown
task type, or unregistered id) — the exception is observed later by the
gather loop. -/
def run_level_task (st : WorkflowState) (task_id : String) :
    WorkflowState × Option String :=
  match List.lookup task_id st.tasks with
  | none => (st, some task_id)
  | some te =>
    match execute_task te st.clock with
    | .error _ => (st, some task_id)
    | .ok te' =>
        ({ tasks := setTask st.tasks task_id te',
           events := st.events ++ [(task_id, statusMap st.tasks)],
           clock := st.clock + 2 }, none)

/-- One level of `execute_workflow`: all of the level's workers run (in
submission order), then the gather loop handles each raised exception by
calling `_cancel_dependent_tasks`. -/
def run_level (st : WorkflowState) (level : List String) : WorkflowState :=
  let step := level.foldl
    (fun acc task_id =>
      let sr := run_level_task acc.1 task_id
      (sr.1, acc.2 ++ sr.2.toList))
    (st, ([] : List String))
  step.2.foldl
    (fun s task_id => { s with tasks := cancel_dependent_tasks task_id s.tasks })
    step.1

/-- `TaskCoordinator.execute_workflow`: resolve the levels, then execute them
in order.  A graph error propagates before any task executes. -/
def execute_workflow (tasks : List (String × TaskExecution)) :
    Except GraphError WorkflowState :=
  match resolve_dependencies
      (tasks.map fun t => (t.1, t.2.task_definition)) with
  | .error e => .error e
  | .ok levels => .ok (levels.foldl run_level ⟨tasks, [], 0⟩)

/-- Dependency edge used by the traversal: `a` is a registered task, `b` a
registered task listed among `a`'s dependencies (unregistered entries are
skipped by `dfs`). -/
def Edge (graph : List (String × List String)) (a b : String) : Prop :=
  a ∈ ids graph ∧ b ∈ ids graph ∧ b ∈ depsOf graph a

/-- Reachability along dependency edges (one or more steps). -/
def Reaches (graph : List (String × List String)) : String → String → Prop :=
  Relation.TransGen (Edge graph)

/-- The dependency relation (restricted to registered ids) has a cycle. -/
def HasCycle (graph : List (String × List String)) : Prop :=
  ∃ a, Reaches graph a a

/-- The index of the level containing a task id, if any. -/
def level_of (levels : List (List String)) (t : String) : Option Nat :=
  levels.findIdx? fun l => decide (t ∈ l)

/-- A registered task with no dependencies whose body reports failure. -/
def td_fail_a : TaskDefinition :=
  ⟨[], [], true, true, .result ⟨false, [], some "boom"⟩⟩

/-- A registered task depending on `"a"` whose body reports success. -/
def td_ok_b : TaskDefinition :=
  ⟨["a"], [], true, true, .result ⟨true, [], none⟩⟩

/-- Two-task workflow: `"a"` fails, `"b"` depends on `"a"` and succeeds. -/
def wf2 : List (String × TaskExecution) :=
  [("a", mkExecution td_fail_a), ("b", mkExecution td_ok_b)]

/-- C1: `resolve_dependencies` does not place a task at
`1 + max(level of its dependencies)`.  With tasks `a` (no dependencies) and
`b` (depending on `a`), registration order `a, b` puts both in level 0, and
registration order `b, a` puts the dependent `b` in level 0 and its
dependency `a` in level 1 — the dependency is leveled at the same or a later
index than the dependent, never strictly earlier. -/
theorem resolve_dependencies_levels_not_dependency_ordered :
    resolve_dependencies [("a", td_fail_a), ("b", td_ok_b)] =
      .ok [["a", "b"]] ∧
    resolve_dependencies [("b", td_ok_b), ("a", td_fail_a)] =
      .ok [["b"], ["a"]] ∧
    level_of [["a", "b"]] "b" = some 0 ∧
    level_of [["a", "b"]] "a" = some 0 ∧
    level_of [["b"], ["a"]] "b" = some 0 ∧
    level_of [["b"], ["a"]] "a" = some 1 :=
  ⟨rfl, rfl, rfl, rfl, rfl, rfl⟩

/-- C2 counterexample: in the two-task workflow where `"a"` ends Failed and
`"b"` declares a dependency on `"a"`, the dependent `"b"` is still invoked
(it appears in the invocation log) and ends Completed, not Cancelled. -/
theorem execute_workflow_dependent_of_failed_not_cancelled :
    ∃ st, execute_workflow wf2 = .ok st ∧
      List.lookup "a" (statusMap st.tasks) = some TaskStatus.failed ∧
      "a" ∈ td_ok_b.dependencies ∧
      "b" ∈ st.events.map Prod.fst ∧
      List.lookup "b" (statusMap st.tasks) = some TaskStatus.completed ∧
      TaskStatus.completed ≠ TaskStatus.cancelled :=
  ⟨_, rfl, rfl, by decide, by decide, rfl, by decide⟩

/-- C3: in the same workflow, `"b"` is passed to `execute_task` at a moment
when its declared dependency `"a"` has status Failed (not Completed), as the
recorded status snapshot of `"b"`'s invocation shows. -/
theorem execute_workflow_invokes_task_with_failed_dependency :
    ∃ st, execute_workflow wf2 = .ok st ∧
      "a" ∈ td_ok_b.dependencies ∧
      List.lookup "b" st.events =
        some [("a", TaskStatus.failed), ("b", TaskStatus.pending)] :=
  ⟨_, rfl, by decide, rfl⟩

/-- C2 amended behavior: a task ending Failed because its body reported
failure triggers no cancellation at all — whatever the dependent task's own
body does, the dependent is still executed when its level is reached and
ends in a status other than Cancelled. -/
theorem execute_workflow_no_cascade_on_body_failure (ob : BodyOutcome) :
    ∃ st,
      execute_workflow [("a", mkExecution td_fail_a),
        ("b", mkExecution ⟨["a"], [], true, true, ob⟩)] = .ok st ∧
      List.lookup "a" (statusMap st.tasks) = some TaskStatus.failed ∧
      st.events.map Prod.fst = ["a", "b"] ∧
      ∃ s, List.lookup "b" (statusMap st.tasks) = some s ∧
        s ≠ TaskStatus.cancelled := by
  cases ob with
  | raises msg =>
      exact ⟨_, rfl, rfl, rfl, ⟨TaskStatus.failed, rfl, by decide⟩⟩
  | result r =>
      rcases r with ⟨s, d, e⟩
      cases s with
      | true =>
          exact ⟨_, rfl, rfl, rfl, ⟨TaskStatus.completed, rfl, by decide⟩⟩
      | false =>
          exact ⟨_, rfl, rfl, rfl, ⟨TaskStatus.failed, rfl, by decide⟩⟩

/-- A task definition whose only dependency names no registered task. -/
def td_ghost : TaskDefinition :=
  ⟨["ghost"], [], true, true, .result ⟨true, [], none⟩⟩

/-- C8 counterexample: a dependency entry naming an unknown id is silently
skipped — the build succeeds and levels the task, raising no error. -/
theorem resolve_dependencies_unknown_dependency_no_error :
    resolve_dependencies [("a", td_ghost)] = .ok [["a"]] := rfl

/-- A registered task whose body reports failure with no error message. -/
def td_fail_silent : TaskDefinition :=
  ⟨[], [], true, true, .result ⟨false, [], none⟩⟩

/-- C9 counterexample: when the task body returns a failure result whose
`error` is `None`, `execute_task` leaves the record Failed with `error`
still `None`. -/
theorem execute_task_failed_with_no_error_message :
    ∃ te', execute_task (mkExecution td_fail_silent) 0 = .ok te' ∧
      te'.status = TaskStatus.failed ∧ te'.error = none :=
  ⟨_, rfl, rfl, rfl⟩

/-- A task definition with one dependency on an id `"x"`. -/
def td_dep_x : TaskDefinition :=
  ⟨["x"], [], true, true, .result ⟨true, [], none⟩⟩

/-- A task definition with no dependencies. -/
def td_no_dep : TaskDefinition :=
  ⟨[], [], true, true, .result ⟨true, [], none⟩⟩

/-- C7 counterexample: adding a second task under an already-registered id
raises nothing — the second definition silently replaces the first. -/
theorem add_task_duplicate_id_overwrites :
    add_task (add_task [] "t" td_dep_x) "t" td_no_dep =
      [("t", mkExecution td_no_dep)] ∧
    td_no_dep ≠ td_dep_x :=
  ⟨rfl, by decide⟩

/-- Branch equation: prerequisites not met. -/
lemma execute_task_eq_prereq_false (te : TaskExecution) (clock : Nat)
    (hcr : te.task_definition.creatable = true)
    (hp : te.task_definition.prereq = false) :
    execute_task te clock =
      .ok { te with status := TaskStatus.failed, start_time := some clock,
                    end_time := some (clock + 1),
                    error := some "Task prerequisites not met" } := by
  unfold execute_task
  rw [hcr, hp]
  rfl

/-- Branch equation: the task body raises. -/
lemma execute_task_eq_raises (te : TaskExecution) (clock : Nat) (msg : String)
    (hcr : te.task_definition.creatable = true)
    (hp : te.task_definition.prereq = true)
    (hb : te.task_definition.body = .raises msg) :
    execute_task te clock =
      .ok { te with status := TaskStatus.failed, start_time := some clock,
                    end_time := some (clock + 1), error := some msg } := by
  unfold execute_task
  rw [hcr, hp, hb]
  rfl

/-- Branch equation: the body reports success but the result fails the
success criteria. -/
lemma execute_task_eq_result_invalid (te : TaskExecution) (clock : Nat)
    (r : AgentResultM)
    (hcr : te.task_definition.creatable = true)
    (hp : te.task_definition.prereq = true)
    (hb : te.task_definition.body = .result r)
    (hs : r.success = true)
    (hv : validate_result te.task_definition.success_criteria r = false) :
    execute_task te clock =
      .ok { te with
            status := TaskStatus.failed, start_time := some clock,
            end_time := some (clock + 1),
            result := some { r with
              success := false,
              error := some "Task result validation failed" },
            error := some "Task result validation failed" } := by
  have hav : apply_validation te.task_definition.success_criteria r =
      { r with
        success := false,
        error := some "Task result validation failed" } := by
    unfold apply_validation
    rw [if_pos ⟨hs, hv⟩]
  unfold execute_task
  rw [hcr, hp, hb]
  simp only [run_body, hav]
  rfl

/-- Branch equation: the body reports success and the result passes the
success criteria. -/
lemma execute_task_eq_result_valid (te : TaskExecution) (clock : Nat)
    (r : AgentResultM)
    (hcr : te.task_definition.creatable = true)
    (hp : te.task_definition.prereq = true)
    (hb : te.task_definition.body = .result r)
    (hs : r.success = true)
    (hv : validate_result te.task_definition.success_criteria r = true) :
    execute_task te clock =
      .ok { te with status := TaskStatus.completed, start_time := some clock,
                    end_time := some (clock + 1), result := some r } := by
  have hav : apply_validation te.task_definition.success_criteria r = r := by
    unfold apply_validation
    rw [if_neg (by simp [hv])]
  unfold execute_task
  rw [hcr, hp, hb]
  simp only [run_body, hav]
  rw [hs]
  rfl

/-- Branch equation: the body reports failure. -/
lemma execute_task_eq_result_failed (te : TaskExecution) (clock : Nat)
    (r : AgentResultM)
    (hcr : te.task_definition.creatable = true)
    (hp : te.task_definition.prereq = true)
    (hb : te.task_definition.body = .result r)
    (hs : r.success = false) :
    execute_task te clock =
      .ok { te with status := TaskStatus.failed, start_time := some clock,
                    end_time := some (clock + 1), result := some r,
                    error := r.error } := by
  have hav : apply_validation te.task_definition.success_criteria r = r := by
    unfold apply_validation
    rw [if_neg (by simp [hs])]
  unfold execute_task
  rw [hcr, hp, hb]
  simp only [run_body, hav]
  rw [hs]
  rfl

/-- C9 amended: for a task of a type `_create_task_instance` can build,
`execute_task` always returns normally with the record terminal (Completed or
Failed, never Running or Retrying), with `end_time` set, and with `error`
unset only in the one case where the body returned a failure result whose own
error was unset. -/
theorem execute_task_leaves_terminal_record (te : TaskExecution) (clock : Nat)
    (h : te.task_definition.creatable = true) :
    ∃ te', execute_task te clock = .ok te' ∧
      (te'.status = TaskStatus.completed ∨ te'.status = TaskStatus.failed) ∧
      te'.status ≠ TaskStatus.running ∧
      te'.status ≠ TaskStatus.retrying ∧
      te'.end_time = some (clock + 1) ∧
      (te'.status = TaskStatus.failed → te'.error = none →
        ∃ r, te.task_definition.body = .result r ∧ r.success = false ∧
          r.error = none) := by
  cases hp : te.task_definition.prereq with
  | false =>
      exact ⟨_, execute_task_eq_prereq_false te clock h hp, Or.inr rfl,
        by simp, by simp, rfl, by simp⟩
  | true =>
      cases hb : te.task_definition.body with
      | raises msg =>
          exact ⟨_, execute_task_eq_raises te clock msg h hp hb, Or.inr rfl,
            by simp, by simp, rfl, by simp⟩
      | result r =>
          cases hs : r.success with
          | false =>
              refine ⟨_, execute_task_eq_result_failed te clock r h hp hb hs,
                Or.inr rfl, by simp, by simp, rfl, ?_⟩
              intro _ herr
              exact ⟨r, rfl, hs, herr⟩
          | true =>
              cases hv : validate_result te.task_definition.success_criteria r
                  with
              | false =>
                  exact ⟨_,
                    execute_task_eq_result_invalid te clock r h hp hb hs hv,
                    Or.inr rfl, by simp, by simp, rfl, by simp⟩
              | true =>
                  exact ⟨_,
                    execute_task_eq_result_valid te clock r h hp hb hs hv,
                    Or.inl rfl, by simp, by simp, rfl, by simp⟩


/-- C9 witness: the amended theorem applied to a concrete creatable task. -/
theorem execute_task_leaves_terminal_record_witness :
    (mkExecution td_fail_silent).task_definition.creatable = true ∧
    (∃ te', execute_task (mkExecution td_fail_silent) 0 = .ok te' ∧
      (te'.status = TaskStatus.completed ∨ te'.status = TaskStatus.failed) ∧
      te'.status ≠ TaskStatus.running ∧
      te'.status ≠ TaskStatus.retrying ∧
      te'.end_time = some (0 + 1) ∧
      (te'.status = TaskStatus.failed → te'.error = none →
        ∃ r, (mkExecution td_fail_silent).task_definition.body = .result r ∧
          r.success = false ∧ r.error = none)) :=
  ⟨rfl, execute_task_leaves_terminal_record (mkExecution td_fail_silent) 0 rfl⟩

/-- C5: a body result reporting success whose data fails the success
criteria is handled as a failure: the stored result has its success flag
cleared and the validation error recorded, the record ends Failed with that
error, and the terminal status equals the one produced by a directly
reported failure. -/
theorem execute_task_criteria_failure_is_failure (te : TaskExecution)
    (clock : Nat) (r : AgentResultM)
    (hcr : te.task_definition.creatable = true)
    (hp : te.task_definition.prereq = true)
    (hb : te.task_definition.body = .result r)
    (hs : r.success = true)
    (hv : validate_result te.task_definition.success_criteria r = false) :
    ∃ te', execute_task te clock = .ok te' ∧
      te'.status = TaskStatus.failed ∧
      te'.error = some "Task result validation failed" ∧
      te'.result = some { r with
        success := false,
        error := some "Task result validation failed" } ∧
      (∀ r₂ : AgentResultM, r₂.success = false →
        ∃ te₂,
          execute_task { te with task_definition :=
            { te.task_definition with body := .result r₂ } } clock = .ok te₂ ∧
          te₂.status = te'.status ∧ te₂.status = TaskStatus.failed) := by
  refine ⟨_, execute_task_eq_result_invalid te clock r hcr hp hb hs hv,
    rfl, rfl, rfl, ?_⟩
  intro r₂ h₂
  exact ⟨_, execute_task_eq_result_failed _ clock r₂ hcr hp rfl h₂, rfl, rfl⟩

/-- Concrete task for the C5 witness: body claims success but the data
misses the expected criterion value. -/
def td_bad_data : TaskDefinition :=
  ⟨[], [("k", Value.i 1)], true, true,
   .result ⟨true, [("k", Value.i 2)], none⟩⟩

/-- C5 witness: the theorem applied at a concrete criteria-violating task. -/
theorem execute_task_criteria_failure_is_failure_witness :
    ((mkExecution td_bad_data).task_definition.creatable = true ∧
     (mkExecution td_bad_data).task_definition.prereq = true ∧
     (mkExecution td_bad_data).task_definition.body =
       .result ⟨true, [("k", Value.i 2)], none⟩ ∧
     (⟨true, [("k", Value.i 2)], none⟩ : AgentResultM).success = true ∧
     validate_result (mkExecution td_bad_data).task_definition.success_criteria
       ⟨true, [("k", Value.i 2)], none⟩ = false) ∧
    (∃ te', execute_task (mkExecution td_bad_data) 0 = .ok te' ∧
      te'.status = TaskStatus.failed ∧
      te'.error = some "Task result validation failed" ∧
      te'.result = some { success := false, data := [("k", Value.i 2)],
                          error := some "Task result validation failed" } ∧
      (∀ r₂ : AgentResultM, r₂.success = false →
        ∃ te₂,
          execute_task { mkExecution td_bad_data with task_definition :=
            { (mkExecution td_bad_data).task_definition with
              body := .result r₂ } } 0 = .ok te₂ ∧
          te₂.status = te'.status ∧ te₂.status = TaskStatus.failed)) :=
  ⟨⟨rfl, rfl, rfl, rfl, by decide⟩,
   execute_task_criteria_failure_is_failure (mkExecution td_bad_data) 0
     ⟨true, [("k", Value.i 2)], none⟩ rfl rfl rfl rfl (by decide)⟩

/-- C10: success-criteria keys absent from the result data are treated as
satisfied (a successful result with none of the criteria keys present
validates), and a key that is present passes validation only by exact
equality with the expected value. -/
theorem validate_result_absent_keys_pass (criteria : List (String × Value))
    (r : AgentResultM) :
    (r.success = true → (∀ kv ∈ criteria, List.lookup kv.1 r.data = none) →
      validate_result criteria r = true) ∧
    (validate_result criteria r = true →
      ∀ kv ∈ criteria, ∀ w, List.lookup kv.1 r.data = some w → w = kv.2) := by
  constructor
  · intro hs habs
    unfold validate_result
    rw [hs]
    simp only [Bool.true_eq_false, if_false, List.all_eq_true]
    intro kv hkv
    rw [habs kv hkv]
  · intro hval kv hkv w hw
    unfold validate_result at hval
    by_cases hs : r.success = false
    · rw [if_pos hs] at hval
      exact absurd hval (by decide)
    · rw [if_neg hs, List.all_eq_true] at hval
      have := hval kv hkv
      rw [hw] at this
      exact of_decide_eq_true this

/-- C10 witness: a successful result with no criteria key present
validates. -/
theorem validate_result_absent_keys_pass_witness :
    validate_result [("k", Value.i 1)] ⟨true, [("other", Value.i 5)], none⟩ =
      true :=
  (validate_result_absent_keys_pass [("k", Value.i 1)]
    ⟨true, [("other", Value.i 5)], none⟩).1 rfl (by decide)

/-- Replacing the value stored under a present key makes lookup return the
new value. -/
lemma lookup_map_replace (new : TaskExecution) :
    ∀ (l : List (String × TaskExecution)) (k : String),
      (List.lookup k l).isSome = true →
      List.lookup k (l.map fun t => if t.1 = k then (t.1, new) else t) =
        some new := by
  intro l
  induction l with
  | nil => intro k h; simp [List.lookup] at h
  | cons a l ih =>
      intro k h
      by_cases hk : a.1 = k
      · subst hk
        rcases a with ⟨a1, a2⟩
        rw [List.map_cons, if_pos rfl]
        simp [List.lookup]
      · simp only [List.map_cons, if_neg hk]
        have hne : (k == a.1) = false := by
          simp [BEq.comm]
          exact fun hh => hk hh.symm
        rcases a with ⟨a1, a2⟩
        simp only [List.lookup_cons, hne, cond_false] at h ⊢
        exact ih k h

/-- The in-place replacement of `add_task` does not change the key list. -/
lemma keys_map_replace (new : TaskExecution)
    (l : List (String × TaskExecution)) (k : String) :
    (l.map fun t => if t.1 = k then (t.1, new) else t).map Prod.fst =
      l.map Prod.fst := by
  induction l with
  | nil => rfl
  | cons a l ih =>
      by_cases hk : a.1 = k <;>
        simp [hk, ih]

/-- C7 amended: registering a task under an already-present id raises
nothing; it overwrites in place — the stored record becomes the new one,
and the key list (hence the task count) is unchanged. -/
theorem add_task_duplicate_id_last_write_wins
    (tasks : List (String × TaskExecution)) (task_id : String)
    (td : TaskDefinition)
    (h : (List.lookup task_id tasks).isSome = true) :
    List.lookup task_id (add_task tasks task_id td) =
      some (mkExecution td) ∧
    (add_task tasks task_id td).map Prod.fst = tasks.map Prod.fst ∧
    (add_task tasks task_id td).length = tasks.length := by
  unfold add_task
  rw [if_pos h]
  refine ⟨lookup_map_replace _ _ _ h, keys_map_replace _ _ _, ?_⟩
  simp

/-- C7 witness: the amended theorem at a concrete duplicate registration. -/
theorem add_task_duplicate_id_last_write_wins_witness :
    (List.lookup "t" [("t", mkExecution td_dep_x)]).isSome = true ∧
    (List.lookup "t" (add_task [("t", mkExecution td_dep_x)] "t" td_no_dep) =
        some (mkExecution td_no_dep) ∧
      (add_task [("t", mkExecution td_dep_x)] "t" td_no_dep).map Prod.fst =
        [("t", mkExecution td_dep_x)].map Prod.fst ∧
      (add_task [("t", mkExecution td_dep_x)] "t" td_no_dep).length =
        [("t", mkExecution td_dep_x)].length) :=
  ⟨rfl, add_task_duplicate_id_last_write_wins [("t", mkExecution td_dep_x)]
    "t" td_no_dep rfl⟩

/-- Characterization of the retry loop from an arbitrary iteration: there is
an `m` such that attempts `attempt, …, attempt+m` run, a backoff sleep of
`delay * backoff ^ k` follows every attempt `k` except the last, every
attempt before the last failed, and the loop stops at `attempt+m` because it
succeeded or because the budget is exhausted. -/
lemma retry_operation_from_char (N : Nat) (base mult : ℚ)
    (outcome : Nat → AttemptOutcome) :
    ∀ fuel attempt, N + 1 = attempt + fuel → attempt ≤ N →
      ∃ m, attempt + m ≤ N ∧
        retry_operation_from N base mult outcome fuel attempt =
          ⟨List.range' attempt (m + 1),
           (List.range' attempt m).map fun k => base * mult ^ k,
           decide (outcome (attempt + m) = .ok)⟩ ∧
        (∀ k, k < m → outcome (attempt + k) ≠ .ok) ∧
        (attempt + m = N ∨ outcome (attempt + m) = .ok) := by
  intro fuel
  induction fuel with
  | zero => intro attempt h1 h2; omega
  | succ fuel ih =>
      intro attempt h1 h2
      cases ho : outcome attempt with
      | ok =>
          refine ⟨0, by omega, ?_, by omega, Or.inr (by simpa using ho)⟩
          simp [retry_operation_from, ho, List.range'_succ, List.range']
      | fail =>
          by_cases hlt : attempt < N
          · obtain ⟨m', hm1, heq, hfail, hstop⟩ :=
              ih (attempt + 1) (by omega) (by omega)
            have hadd : attempt + 1 + m' = attempt + (m' + 1) := by omega
            refine ⟨m' + 1, by omega, ?_, ?_, ?_⟩
            · simp only [retry_operation_from, ho, if_pos hlt, heq]
              rw [List.range'_succ attempt (m' + 1) 1,
                List.range'_succ attempt m' 1, List.map_cons, hadd]
            · intro k hk
              cases k with
              | zero => simp [ho]
              | succ k' =>
                  have hsh : attempt + (k' + 1) = attempt + 1 + k' := by omega
                  rw [hsh]
                  exact hfail k' (by omega)
            · rw [← hadd]
              exact hstop
          · have hm0 : attempt + 0 = N := by omega
            refine ⟨0, by omega, ?_, by omega, Or.inl hm0⟩
            simp [retry_operation_from, ho, hlt, List.range'_succ, List.range']
      | exn msg =>
          by_cases hlt : attempt < N
          · obtain ⟨m', hm1, heq, hfail, hstop⟩ :=
              ih (attempt + 1) (by omega) (by omega)
            have hadd : attempt + 1 + m' = attempt + (m' + 1) := by omega
            refine ⟨m' + 1, by omega, ?_, ?_, ?_⟩
            · simp only [retry_operation_from, ho, if_pos hlt, heq]
              rw [List.range'_succ attempt (m' + 1) 1,
                List.range'_succ attempt m' 1, List.map_cons, hadd]
            · intro k hk
              cases k with
              | zero => simp [ho]
              | succ k' =>
                  have hsh : attempt + (k' + 1) = attempt + 1 + k' := by omega
                  rw [hsh]
                  exact hfail k' (by omega)
            · rw [← hadd]
              exact hstop
          · have hm0 : attempt + 0 = N := by omega
            refine ⟨0, by omega, ?_, by omega, Or.inl hm0⟩
            simp [retry_operation_from, ho, hlt, List.range'_succ, List.range']

/-- C4: with budget `maxRetries = N` the operation is invoked at most `N + 1`
times; a retry (invocation `k + 1`) happens exactly when invocation `k`
happened, did not succeed, and `k < N`; the sleep before the retry following
attempt `k` is exactly `base * mult ^ k`; and for `mult ≥ 1` (with the
validated non-negative base delay) that schedule is non-decreasing in `k`. -/
theorem retry_operation_bounded_backoff (N : Nat) (base mult : ℚ)
    (outcome : Nat → AttemptOutcome) (hbase : agent_config_valid base) :
    (retry_operation N base mult outcome).invoked.length ≤ N + 1 ∧
    (∀ k, (k + 1) ∈ (retry_operation N base mult outcome).invoked ↔
      (k ∈ (retry_operation N base mult outcome).invoked ∧
        outcome k ≠ AttemptOutcome.ok ∧ k < N)) ∧
    (∀ k, (k + 1) ∈ (retry_operation N base mult outcome).invoked →
      (retry_operation N base mult outcome).sleeps[k]? =
        some (base * mult ^ k)) ∧
    (1 ≤ mult → ∀ k, base * mult ^ k ≤ base * mult ^ (k + 1)) := by
  obtain ⟨m, hm, heq, hfail, hstop⟩ :=
    retry_operation_from_char N base mult outcome (N + 1) 0 (by omega)
      (by omega)
  rw [Nat.zero_add] at hm
  unfold retry_operation
  rw [heq]
  refine ⟨?_, ?_, ?_, ?_⟩
  · simp
    omega
  · intro k
    simp only [List.mem_range'_1]
    constructor
    · intro hk
      have hkm : k < m := by omega
      have := hfail k hkm
      rw [Nat.zero_add] at this
      exact ⟨by omega, this, by omega⟩
    · rintro ⟨hk1, hno, hkN⟩
      have hkm : k ≤ m := by omega
      rcases Nat.lt_or_ge k m with hlt | hge
      · omega
      · have hkm' : k = m := by omega
        subst hkm'
        rcases hstop with hsN | hok
        · omega
        · rw [Nat.zero_add] at hok
          exact absurd hok hno
  · intro k hk
    simp only [List.mem_range'_1] at hk
    have hkm : k < m := by omega
    simp [List.getElem?_range', hkm]
  · intro hmult k
    have h0m : (0 : ℚ) ≤ mult := le_trans zero_le_one hmult
    have hpow : mult ^ k ≤ mult ^ (k + 1) :=
      pow_le_pow_right₀ hmult (by omega)
    exact mul_le_mul_of_nonneg_left hpow hbase

/-- C4 witness: the theorem at a concrete config (budget 1, base 1,
multiplier 2) and an always-failing operation. -/
theorem retry_operation_bounded_backoff_witness :
    agent_config_valid 1 ∧
    ((retry_operation 1 1 2 fun _ => AttemptOutcome.fail).invoked.length ≤
        1 + 1 ∧
      (∀ k, (k + 1) ∈
          (retry_operation 1 1 2 fun _ => AttemptOutcome.fail).invoked ↔
        (k ∈ (retry_operation 1 1 2 fun _ => AttemptOutcome.fail).invoked ∧
          (fun _ => AttemptOutcome.fail) k ≠ AttemptOutcome.ok ∧ k < 1)) ∧
      (∀ k, (k + 1) ∈
          (retry_operation 1 1 2 fun _ => AttemptOutcome.fail).invoked →
        (retry_operation 1 1 2 fun _ => AttemptOutcome.fail).sleeps[k]? =
          some (1 * 2 ^ k)) ∧
      ((1 : ℚ) ≤ 2 → ∀ k, (1 : ℚ) * 2 ^ k ≤ 1 * 2 ^ (k + 1))) :=
  ⟨by norm_num [agent_config_valid],
   retry_operation_bounded_backoff 1 1 2 (fun _ => AttemptOutcome.fail)
     (by norm_num [agent_config_valid])⟩

/-- Bind on `Except` short-circuits errors. -/
lemma except_bind_error {ε σ τ : Type} (e : ε) (g : σ → Except ε τ) :
    (Except.error e >>= g) = Except.error e := rfl

/-- Bind on `Except` continues on `.ok`. -/
lemma except_bind_ok {ε σ τ : Type} (s : σ) (g : σ → Except ε τ) :
    (Except.ok s >>= g) = g s := rfl

/-- If an effectful fold over `Except` fails, the failure comes from the step
function on some list element (at some intermediate state). -/
lemma foldlM_except_error {σ α ε : Type} (f : σ → α → Except ε σ) :
    ∀ (l : List α) (st : σ) (e : ε),
      l.foldlM f st = .error e → ∃ x ∈ l, ∃ st', f st' x = .error e := by
  intro l
  induction l with
  | nil => intro st e h; simp [pure, Except.pure] at h
  | cons a l ih =>
      intro st e h
      rw [List.foldlM_cons] at h
      cases hf : f st a with
      | error e' =>
          rw [hf, except_bind_error] at h
          have he : e' = e := by
            injection h
          exact ⟨a, by simp, st, by rw [hf, he]⟩
      | ok st1 =>
          rw [hf, except_bind_ok] at h
          obtain ⟨x, hx, st', hst'⟩ := ih st1 e h
          exact ⟨x, by simp [hx], st', hst'⟩

/-- A chain step list reaching `b` yields transitive reachability. -/
lemma chain_to_transGen {R : String → String → Prop} :
    ∀ (l : List String) (a b : String), List.Chain R a l → b ∈ l →
      Relation.TransGen R a b := by
  intro l
  induction l with
  | nil => intro a b _ hb; cases hb
  | cons x xs ih =>
      intro a b hch hb
      rcases List.chain_cons.mp hch with ⟨hax, hxs⟩
      rcases List.mem_cons.mp hb with rfl | hb'
      · exact Relation.TransGen.single hax
      · exact Relation.TransGen.head hax (ih x b hxs hb')

/-- A chain from the stack through `x` back to `x` is a cycle. -/
lemma chain'_mem_self_cycle {R : String → String → Prop} {l : List String}
    {x : String} (h : List.Chain' R (l ++ [x])) (hx : x ∈ l) :
    Relation.TransGen R x x := by
  obtain ⟨s, t, rfl⟩ := List.append_of_mem hx
  rw [List.append_assoc] at h
  have h2 : List.Chain' R (x :: (t ++ [x])) :=
    ((List.chain'_append).mp h).2.1
  have hch : List.Chain R x (t ++ [x]) := h2
  exact chain_to_transGen _ _ _ hch (by simp)

/-- A node on which the traversal cannot return `.ok` is one already on the
recursion stack. -/
lemma dfs_ok_not_in_temp (graph : List (String × List String))
    (fuel : Nat) (node : String) (level : Nat) (temp : List String)
    (st st' : DfsState)
    (h : dfs graph fuel node level temp st = .ok st') : node ∉ temp := by
  intro hmem
  cases fuel with
  | zero => simp [dfs] at h
  | succ f =>
      simp only [dfs] at h
      rw [if_pos hmem] at h
      simp at h

/-- Soundness of cycle detection: when `dfs` reports a circular dependency at
`c`, the dependency relation really reaches from `c` back to `c`.  The `temp`
stack together with the current node always forms an edge chain. -/
lemma dfs_error_circular (graph : List (String × List String)) :
    ∀ (fuel : Nat) (node : String) (level : Nat) (temp : List String)
      (st : DfsState) (c : String),
      node ∈ ids graph →
      List.Chain' (Edge graph) (temp ++ [node]) →
      dfs graph fuel node level temp st = .error (.circular c) →
      Relation.TransGen (Edge graph) c c := by
  intro fuel
  induction fuel with
  | zero =>
      intro node level temp st c _ _ h
      simp [dfs] at h
  | succ fuel ih =>
      intro node level temp st c hnode hchain h
      simp only [dfs] at h
      by_cases hmem : node ∈ temp
      · rw [if_pos hmem] at h
        have hc : GraphError.circular node = GraphError.circular c := by
          injection h
        have hc' : node = c := by injection hc
        subst hc'
        exact chain'_mem_self_cycle hchain hmem
      · rw [if_neg hmem] at h
        by_cases hvis : node ∈ st.visited
        · rw [if_pos hvis] at h
          simp at h
        · rw [if_neg hvis] at h
          cases hfold : (depsOf graph node).foldlM
              (fun s dep =>
                if dep ∈ ids graph then
                  dfs graph fuel dep (level + 1) (temp ++ [node]) s
                else
                  .ok s) st with
          | ok st' =>
              rw [hfold] at h
              simp at h
          | error e =>
              rw [hfold] at h
              have he : e = GraphError.circular c := by
                injection h
              subst he
              obtain ⟨dep, hdep, st'', hst''⟩ :=
                foldlM_except_error _ _ _ _ hfold
              by_cases hid : dep ∈ ids graph
              · rw [if_pos hid] at hst''
                refine ih dep (level + 1) (temp ++ [node]) st'' c hid ?_ hst''
                refine (List.chain'_append).mpr
                  ⟨hchain, List.chain'_singleton dep, ?_⟩
                intro x hx y hy
                rw [List.getLast?_concat] at hx
                simp only [List.head?_cons, Option.mem_some_iff] at hx hy
                rw [← hx, ← hy]
                exact ⟨hnode, hid, hdep⟩
              · rw [if_neg hid] at hst''
                simp at hst''

/-- The fuel of the model is never exhausted: under a duplicate-free id list
the recursion stack is a duplicate-free sublist of the ids, so its depth
never exceeds the task count. -/
lemma dfs_no_fuel_exhaustion (graph : List (String × List String)) :
    ∀ (fuel : Nat) (node : String) (level : Nat) (temp : List String)
      (st : DfsState),
      node ∈ ids graph → temp ⊆ ids graph → temp.Nodup →
      (ids graph).length + 1 ≤ temp.length + fuel →
      dfs graph fuel node level temp st ≠ .error .fuelExhausted := by
  intro fuel
  induction fuel with
  | zero =>
      intro node level temp st _ hsub hnodup hlen _
      have hle : temp.length ≤ (ids graph).length :=
        (hnodup.subperm hsub).length_le
      omega
  | succ fuel ih =>
      intro node level temp st hnode hsub hnodup hlen h
      simp only [dfs] at h
      by_cases hmem : node ∈ temp
      · rw [if_pos hmem] at h
        simp at h
      · rw [if_neg hmem] at h
        by_cases hvis : node ∈ st.visited
        · rw [if_pos hvis] at h
          simp at h
        · rw [if_neg hvis] at h
          cases hfold : (depsOf graph node).foldlM
              (fun s dep =>
                if dep ∈ ids graph then
                  dfs graph fuel dep (level + 1) (temp ++ [node]) s
                else
                  .ok s) st with
          | ok st' =>
              rw [hfold] at h
              simp at h
          | error e =>
              rw [hfold] at h
              have he : e = GraphError.fuelExhausted := by
                injection h
              subst he
              obtain ⟨dep, hdep, st'', hst''⟩ :=
                foldlM_except_error _ _ _ _ hfold
              by_cases hid : dep ∈ ids graph
              · rw [if_pos hid] at hst''
                refine ih dep (level + 1) (temp ++ [node]) st'' hid ?_ ?_ ?_
                  hst''
                · exact List.append_subset.mpr
                    ⟨hsub, by simpa using hnode⟩
                · rw [List.nodup_append]
                  refine ⟨hnodup, List.nodup_singleton node, ?_⟩
                  intro a ha hb
                  rw [List.mem_singleton] at hb
                  exact hmem (hb ▸ ha)
                · have hlen1 : (temp ++ [node]).length = temp.length + 1 := by
                    simp
                  omega
              · rw [if_neg hid] at hst''
                simp at hst''

/-- A visited list is dependency-closed: edges out of it stay inside it. -/
def DepClosed (graph : List (String × List String)) (l : List String) : Prop :=
  ∀ x ∈ l, ∀ d, Edge graph x d → d ∈ l

/-- Invariant of the `visited` list maintained by `dfs`: no duplicates, no
node appears before one of its registered dependencies (no forward edge, no
self edge), and the list is dependency-closed — i.e. the reverse of a
topological order. -/
def DfsInv (graph : List (String × List String)) (st : DfsState) : Prop :=
  st.visited.Nodup ∧ DepClosed graph st.visited ∧
  st.visited.Pairwise (fun a b => ¬ Edge graph a b) ∧
  ∀ x ∈ st.visited, ¬ Edge graph x x

/-- The empty traversal state satisfies the invariant. -/
lemma dfsInv_init (graph : List (String × List String)) :
    DfsInv graph ⟨[], []⟩ := by
  refine ⟨List.nodup_nil, ?_, List.Pairwise.nil, ?_⟩ <;> intro x hx <;> cases hx

/-- Completing `dfs` on a node preserves the invariant, marks the node
visited, and only appends nodes that are not on the recursion stack. -/
lemma dfs_ok_inv (graph : List (String × List String)) :
    ∀ (fuel : Nat) (node : String) (level : Nat) (temp : List String)
      (st st' : DfsState),
      node ∈ ids graph → DfsInv graph st →
      dfs graph fuel node level temp st = .ok st' →
      DfsInv graph st' ∧ node ∈ st'.visited ∧
      ∃ ext, st'.visited = st.visited ++ ext ∧ ∀ x ∈ ext, x ∉ temp := by
  intro fuel
  induction fuel with
  | zero =>
      intro node level temp st st' _ _ h
      simp [dfs] at h
  | succ fuel ih =>
      intro node level temp st st' hnode hinv h
      simp only [dfs] at h
      by_cases hmem : node ∈ temp
      · rw [if_pos hmem] at h
        simp at h
      · rw [if_neg hmem] at h
        by_cases hvis : node ∈ st.visited
        · rw [if_pos hvis] at h
          have hst : st = st' := by injection h
          subst hst
          exact ⟨hinv, hvis, [], by simp, by simp⟩
        · rw [if_neg hvis] at h
          have fold_spec : ∀ (l : List String) (s s' : DfsState),
              DfsInv graph s →
              l.foldlM (fun s dep =>
                if dep ∈ ids graph then
                  dfs graph fuel dep (level + 1) (temp ++ [node]) s
                else
                  .ok s) s = .ok s' →
              DfsInv graph s' ∧
              (∃ ext, s'.visited = s.visited ++ ext ∧
                ∀ x ∈ ext, x ∉ temp ++ [node]) ∧
              (∀ d ∈ l, d ∈ ids graph → d ∈ s'.visited) ∧
              (∀ d ∈ l, d ∈ ids graph → d ∉ temp ++ [node]) := by
            intro l
            induction l with
            | nil =>
                intro s s' hi hfl
                have hss : s = s' := by
                  rw [List.foldlM_nil] at hfl
                  injection hfl
                subst hss
                exact ⟨hi, ⟨[], by simp, by simp⟩, by simp, by simp⟩
            | cons d ds ihl =>
                intro s s' hi hfl
                rw [List.foldlM_cons] at hfl
                by_cases hid : d ∈ ids graph
                · rw [if_pos hid] at hfl
                  cases hd : dfs graph fuel d (level + 1) (temp ++ [node])
                      s with
                  | error e =>
                      rw [hd, except_bind_error] at hfl
                      simp at hfl
                  | ok s1 =>
                      rw [hd, except_bind_ok] at hfl
                      obtain ⟨hi1, hmem1, ext1, hv1, hext1⟩ :=
                        ih d (level + 1) (temp ++ [node]) s s1 hid hi hd
                      obtain ⟨hi2, ⟨ext2, hv2, hext2⟩, hall, hnt⟩ :=
                        ihl s1 s' hi1 hfl
                      have hnt0 : d ∉ temp ++ [node] :=
                        dfs_ok_not_in_temp graph fuel d (level + 1)
                          (temp ++ [node]) s s1 hd
                      refine ⟨hi2,
                        ⟨ext1 ++ ext2,
                          by rw [hv2, hv1, List.append_assoc], ?_⟩, ?_, ?_⟩
                      · intro x hx
                        rcases List.mem_append.mp hx with hx1 | hx2
                        · exact hext1 x hx1
                        · exact hext2 x hx2
                      · intro d' hd' hid'
                        rcases List.mem_cons.mp hd' with rfl | hds
                        · rw [hv2]
                          exact List.mem_append_left _ hmem1
                        · exact hall d' hds hid'
                      · intro d' hd' hid'
                        rcases List.mem_cons.mp hd' with rfl | hds
                        · exact hnt0
                        · exact hnt d' hds hid'
                · rw [if_neg hid, except_bind_ok] at hfl
                  obtain ⟨hi2, hext, hall, hnt⟩ := ihl s s' hi hfl
                  refine ⟨hi2, hext, ?_, ?_⟩
                  · intro d' hd' hid'
                    rcases List.mem_cons.mp hd' with rfl | hds
                    · exact absurd hid' hid
                    · exact hall d' hds hid'
                  · intro d' hd' hid'
                    rcases List.mem_cons.mp hd' with rfl | hds
                    · exact absurd hid' hid
                    · exact hnt d' hds hid'
          cases hfold : (depsOf graph node).foldlM
              (fun s dep =>
                if dep ∈ ids graph then
                  dfs graph fuel dep (level + 1) (temp ++ [node]) s
                else
                  .ok s) st with
          | error e =>
              rw [hfold] at h
              simp at h
          | ok st'' =>
              rw [hfold] at h
              have hst' : st' = ⟨st''.visited ++ [node],
                  appendAt st''.levels level node⟩ := by
                have := h
                injection this with h1
                exact h1.symm
              obtain ⟨⟨hnd'', hcl'', hpw'', hse''⟩, ⟨ext2, hv2, hext2⟩,
                hall, hnt⟩ := fold_spec (depsOf graph node) st st'' hinv hfold
              have hnode_not : node ∉ st''.visited := by
                rw [hv2]
                intro hc
                rcases List.mem_append.mp hc with hc1 | hc2
                · exact hvis hc1
                · exact hext2 node hc2 (by simp)
              have hnoself : ¬ Edge graph node node := by
                rintro ⟨_, hid2, hdep2⟩
                exact hnt node hdep2 hid2 (by simp)
              subst hst'
              refine ⟨⟨?_, ?_, ?_, ?_⟩, by simp, ?_⟩
              · rw [List.nodup_append]
                refine ⟨hnd'', List.nodup_singleton node, ?_⟩
                intro a ha hb
                rw [List.mem_singleton] at hb
                exact hnode_not (hb ▸ ha)
              · intro x hx d hed
                rcases List.mem_append.mp hx with hx1 | hx2
                · exact List.mem_append_left _ (hcl'' x hx1 d hed)
                · rw [List.mem_singleton] at hx2
                  subst hx2
                  exact List.mem_append_left _
                    (hall d hed.2.2 hed.2.1)
              · rw [List.pairwise_append]
                refine ⟨hpw'', List.pairwise_singleton _ _, ?_⟩
                intro a ha b hb
                rw [List.mem_singleton] at hb
                subst hb
                intro hedge
                exact hnode_not (hcl'' a ha b hedge)
              · intro x hx
                rcases List.mem_append.mp hx with hx1 | hx2
                · exact hse'' x hx1
                · rw [List.mem_singleton] at hx2
                  subst hx2
                  exact hnoself
              · refine ⟨ext2 ++ [node], by rw [hv2, List.append_assoc], ?_⟩
                intro x hx
                rcases List.mem_append.mp hx with hx1 | hx2
                · intro hc
                  exact hext2 x hx1 (List.mem_append_left _ hc)
                · rw [List.mem_singleton] at hx2
                  subst hx2
                  exact hmem

/-- In a no-forward-edge, no-self-edge, duplicate-free list, the target of an
edge sits strictly earlier than its source. -/
lemma edge_before (graph : List (String × List String)) {l : List String}
    (hpw : l.Pairwise fun a b => ¬ Edge graph a b)
    (hself : ∀ x ∈ l, ¬ Edge graph x x) :
    ∀ x y, Edge graph x y → x ∈ l → y ∈ l →
      l.indexOf y < l.indexOf x := by
  intro x y he hx hy
  by_contra hcon
  push_neg at hcon
  have hxy : x ≠ y := fun heq => hself x hx (heq ▸ he)
  have hne : l.indexOf x ≠ l.indexOf y :=
    fun heq => hxy ((List.indexOf_inj hx hy).mp heq)
  have hlt : l.indexOf x < l.indexOf y := lt_of_le_of_ne hcon hne
  have hb := List.pairwise_iff_getElem.mp hpw (l.indexOf x) (l.indexOf y)
    (List.indexOf_lt_length.mpr hx) (List.indexOf_lt_length.mpr hy) hlt
  rw [List.getElem_indexOf, List.getElem_indexOf] at hb
  exact hb he

/-- The source of a reachability chain is a registered id. -/
lemma reaches_src_mem (graph : List (String × List String)) {x y : String}
    (h : Reaches graph x y) : x ∈ ids graph := by
  induction h with
  | single he => exact he.1
  | tail _ _ ih => exact ih

/-- Reachability strictly decreases the position in a list satisfying the
`dfs` invariant. -/
lemma reaches_before (graph : List (String × List String)) {l : List String}
    (hpw : l.Pairwise fun a b => ¬ Edge graph a b)
    (hself : ∀ x ∈ l, ¬ Edge graph x x) (hcl : DepClosed graph l) :
    ∀ x y, Reaches graph x y → x ∈ l →
      y ∈ l ∧ l.indexOf y < l.indexOf x := by
  intro x y hr
  induction hr with
  | single he =>
      intro hx
      have hy := hcl x hx _ he
      exact ⟨hy, edge_before graph hpw hself x _ he hx hy⟩
  | tail hr' he ih =>
      intro hx
      obtain ⟨hb, hlt⟩ := ih hx
      have hy := hcl _ hb _ he
      exact ⟨hy, lt_trans (edge_before graph hpw hself _ _ he hb hy) hlt⟩

/-- If the traversal finished with every id visited, the dependency relation
has no cycle. -/
lemma dfsInv_no_cycle (graph : List (String × List String)) {st : DfsState}
    (hinv : DfsInv graph st)
    (hall : ∀ t ∈ ids graph, t ∈ st.visited) : ¬ HasCycle graph := by
  rintro ⟨a, hr⟩
  obtain ⟨hnd, hcl, hpw, hself⟩ := hinv
  have ha : a ∈ st.visited := hall a (reaches_src_mem graph hr)
  obtain ⟨_, hlt⟩ := reaches_before graph hpw hself hcl a a hr ha
  omega

/-- Behavior of the outer loop of `resolve_dependencies` when it completes:
the invariant holds and every processed id is visited. -/
lemma resolve_fold_ok (graph : List (String × List String)) :
    ∀ (l : List String) (s s' : DfsState),
      (∀ t ∈ l, t ∈ ids graph) → DfsInv graph s →
      l.foldlM (fun s task_id =>
        if task_id ∈ s.visited then
          .ok s
        else
          dfs graph (graph.length + 1) task_id 0 [] s) s = .ok s' →
      DfsInv graph s' ∧ (∃ ext, s'.visited = s.visited ++ ext) ∧
      ∀ t ∈ l, t ∈ s'.visited := by
  intro l
  induction l with
  | nil =>
      intro s s' _ hi h
      have hss : s = s' := by
        rw [List.foldlM_nil] at h
        injection h
      subst hss
      exact ⟨hi, ⟨[], by simp⟩, by simp⟩
  | cons t ts ihl =>
      intro s s' hmem hi h
      rw [List.foldlM_cons] at h
      by_cases hv : t ∈ s.visited
      · rw [if_pos hv, except_bind_ok] at h
        obtain ⟨hi2, ⟨ext, hext⟩, hall⟩ :=
          ihl s s' (fun u hu => hmem u (by simp [hu])) hi h
        refine ⟨hi2, ⟨ext, hext⟩, ?_⟩
        intro u hu
        rcases List.mem_cons.mp hu with rfl | hus
        · rw [hext]
          exact List.mem_append_left _ hv
        · exact hall u hus
      · rw [if_neg hv] at h
        cases hd : dfs graph (graph.length + 1) t 0 [] s with
        | error e =>
            rw [hd, except_bind_error] at h
            simp at h
        | ok s1 =>
            rw [hd, except_bind_ok] at h
            obtain ⟨hi1, hmem1, ext1, hv1, _⟩ :=
              dfs_ok_inv graph (graph.length + 1) t 0 [] s s1
                (hmem t (by simp)) hi hd
            obtain ⟨hi2, ⟨ext2, hext2⟩, hall⟩ :=
              ihl s1 s' (fun u hu => hmem u (by simp [hu])) hi1 h
            refine ⟨hi2, ⟨ext1 ++ ext2,
              by rw [hext2, hv1, List.append_assoc]⟩, ?_⟩
            intro u hu
            rcases List.mem_cons.mp hu with rfl | hus
            · rw [hext2]
              exact List.mem_append_left _ hmem1
            · exact hall u hus

/-- The dependency graph read off the registered task records. -/
def graph_of_tasks (tasks : List (String × TaskExecution)) :
    List (String × List String) :=
  tasks.map fun t => (t.1, t.2.task_definition.dependencies)

/-- `resolve_dependencies` applied to the coordinator's registered task
definitions processes exactly `graph_of_tasks`. -/
lemma resolve_dependencies_eq_graph (tasks : List (String × TaskExecution)) :
    resolve_dependencies (tasks.map fun t => (t.1, t.2.task_definition)) =
      resolve_graph (graph_of_tasks tasks) := by
  unfold resolve_dependencies graph_of_tasks
  rw [List.map_map]
  rfl

/-- C6: on a duplicate-free registered task set, if the dependency relation
restricted to registered ids has a cycle, `resolve_dependencies` raises the
circular-dependency error naming a task id that lies on a cycle, no levels
are produced, and `execute_workflow` propagates the error before executing
any task; if the relation is acyclic, `resolve_dependencies` returns levels
normally. -/
theorem resolve_dependencies_cycle_detection
    (tasks : List (String × TaskExecution))
    (_hnd : (tasks.map Prod.fst).Nodup) :
    (HasCycle (graph_of_tasks tasks) →
      ∃ c, resolve_dependencies (tasks.map fun t => (t.1, t.2.task_definition))
          = .error (.circular c) ∧
        Reaches (graph_of_tasks tasks) c c ∧
        execute_workflow tasks = .error (.circular c)) ∧
    (¬ HasCycle (graph_of_tasks tasks) →
      ∃ levels,
        resolve_dependencies (tasks.map fun t => (t.1, t.2.task_definition)) =
          .ok levels) := by
  have hids : ids (graph_of_tasks tasks) = tasks.map Prod.fst := by
    unfold ids graph_of_tasks
    rw [List.map_map]
    rfl
  have hlen : (graph_of_tasks tasks).length = tasks.length := by
    unfold graph_of_tasks
    rw [List.length_map]
  have hwf : execute_workflow tasks =
      match resolve_dependencies
          (tasks.map fun t => (t.1, t.2.task_definition)) with
      | .error e => .error e
      | .ok levels =>
          .ok (levels.foldl run_level ⟨tasks, [], 0⟩) := rfl
  rw [resolve_dependencies_eq_graph]
  set graph := graph_of_tasks tasks with hgraph
  cases hfold : (ids graph).foldlM
      (fun s task_id =>
        if task_id ∈ s.visited then
          .ok s
        else
          dfs graph (graph.length + 1) task_id 0 [] s)
      (⟨[], []⟩ : DfsState) with
  | ok st =>
      have hres : resolve_graph graph = .ok st.levels := by
        unfold resolve_graph
        rw [hfold]
      obtain ⟨hinv, _, hall⟩ :=
        resolve_fold_ok graph (ids graph) ⟨[], []⟩ st (fun t ht => ht)
          (dfsInv_init graph) hfold
      have hnc : ¬ HasCycle graph := dfsInv_no_cycle graph hinv hall
      exact ⟨fun hc => absurd hc hnc, fun _ => ⟨st.levels, hres⟩⟩
  | error e =>
      have hres : resolve_graph graph = .error e := by
        unfold resolve_graph
        rw [hfold]
      obtain ⟨tid, htid, st', hst'⟩ := foldlM_except_error _ _ _ _ hfold
      have hstep : dfs graph (graph.length + 1) tid 0 [] st' = .error e := by
        by_cases hv : tid ∈ st'.visited
        · rw [if_pos hv] at hst'
          simp at hst'
        · rwa [if_neg hv] at hst'
      cases e with
      | fuelExhausted =>
          exfalso
          refine dfs_no_fuel_exhaustion graph (graph.length + 1) tid 0 [] st'
            htid ?_ ?_ ?_ hstep
          · intro a ha
            cases ha
          · exact List.nodup_nil
          · simp only [List.length_nil]
            rw [hids, List.length_map] at *
            omega
      | circular c =>
          have hcyc : Reaches graph c c :=
            dfs_error_circular graph (graph.length + 1) tid 0 [] st' c htid
              (by simp) hstep
          refine ⟨fun _ => ⟨c, hres, hcyc, ?_⟩, fun hnc => ?_⟩
          · rw [hwf, resolve_dependencies_eq_graph, ← hgraph, hres]
          · exact absurd ⟨c, hcyc⟩ hnc

/-- Concrete cyclic task pair for the C6 witness. -/
def td_cyc_a : TaskDefinition :=
  ⟨["b"], [], true, true, .result ⟨true, [], none⟩⟩

/-- Second half of the concrete cycle. -/
def td_cyc_b : TaskDefinition :=
  ⟨["a"], [], true, true, .result ⟨true, [], none⟩⟩

/-- Concrete cyclic workflow (`a` and `b` depend on each other). -/
def wf_cyc : List (String × TaskExecution) :=
  [("a", mkExecution td_cyc_a), ("b", mkExecution td_cyc_b)]

/-- C6 witness: the theorem applied to the concrete cyclic workflow. -/
theorem resolve_dependencies_cycle_detection_witness :
    (wf_cyc.map Prod.fst).Nodup ∧
    ((HasCycle (graph_of_tasks wf_cyc) →
      ∃ c, resolve_dependencies
          (wf_cyc.map fun t => (t.1, t.2.task_definition)) =
            .error (.circular c) ∧
        Reaches (graph_of_tasks wf_cyc) c c ∧
        execute_workflow wf_cyc = .error (.circular c)) ∧
    (¬ HasCycle (graph_of_tasks wf_cyc) →
      ∃ levels,
        resolve_dependencies (wf_cyc.map fun t => (t.1, t.2.task_definition)) =
          .ok levels)) :=
  ⟨by decide, resolve_dependencies_cycle_detection wf_cyc (by decide)⟩

/-- Looking up in an association list whose values were mapped. -/
lemma lookup_map_values {β γ : Type} (f : β → γ) :
    ∀ (l : List (String × β)) (k : String),
      List.lookup k (l.map fun kv => (kv.1, f kv.2)) =
        (List.lookup k l).map f := by
  intro l
  induction l with
  | nil => intro k; rfl
  | cons a l ih =>
      intro k
      rcases a with ⟨a1, a2⟩
      simp only [List.map_cons, List.lookup_cons]
      cases hk : k == a1 with
      | true => rfl
      | false => exact ih k

/-- A fold whose element guard matches a filter predicate can be pushed into
the list. -/
lemma foldlM_filter_mem {σ : Type}
    (P : String → Prop) [DecidablePred P]
    (f : σ → String → Except GraphError σ) :
    ∀ (l : List String) (s : σ),
      (l.filter fun d => decide (P d)).foldlM f s =
        l.foldlM (fun s x => if P x then f s x else .ok s) s := by
  intro l
  induction l with
  | nil => intro s; rfl
  | cons a l ih =>
      intro s
      by_cases hp : P a
      · rw [List.filter_cons_of_pos (by simpa using hp), List.foldlM_cons,
          List.foldlM_cons, if_pos hp]
        cases hf : f s a with
        | error e => rw [except_bind_error, except_bind_error]
        | ok s1 => rw [except_bind_ok, except_bind_ok, ih]
      · rw [List.filter_cons_of_neg (by simpa using hp), List.foldlM_cons,
          if_neg hp, except_bind_ok, ih]

/-- Pointwise-equal step functions fold identically. -/
lemma foldlM_congr_fn {σ : Type} :
    ∀ (l : List String) (f g : σ → String → Except GraphError σ) (s : σ),
      (∀ x ∈ l, ∀ s, f s x = g s x) →
      l.foldlM f s = l.foldlM g s := by
  intro l
  induction l with
  | nil => intro f g s _; rfl
  | cons a l ih =>
      intro f g s hfg
      rw [List.foldlM_cons, List.foldlM_cons, hfg a (by simp) s]
      cases g s a with
      | error e => rw [except_bind_error, except_bind_error]
      | ok s1 =>
          rw [except_bind_ok, except_bind_ok]
          exact ih f g s1 fun x hx => hfg x (by simp [hx])

/-- The dependency graph with every unregistered dependency entry deleted. -/
def restrict_to_known (graph : List (String × List String)) :
    List (String × List String) :=
  graph.map fun kv => (kv.1, kv.2.filter fun d => decide (d ∈ ids graph))

/-- Restriction does not change the registered ids. -/
lemma ids_restrict_to_known (graph : List (String × List String)) :
    ids (restrict_to_known graph) = ids graph := by
  unfold ids restrict_to_known
  rw [List.map_map]
  rfl

/-- Restriction filters each dependency list. -/
lemma depsOf_restrict_to_known (graph : List (String × List String))
    (node : String) :
    depsOf (restrict_to_known graph) node =
      (depsOf graph node).filter fun d => decide (d ∈ ids graph) := by
  unfold depsOf restrict_to_known
  rw [lookup_map_values]
  cases List.lookup node graph with
  | none => rfl
  | some ds => rfl

/-- The traversal never looks at unregistered dependency entries: `dfs` on
the restricted graph equals `dfs` on the original graph. -/
lemma dfs_restrict_to_known (graph : List (String × List String)) :
    ∀ (fuel : Nat) (node : String) (level : Nat) (temp : List String)
      (st : DfsState),
      dfs (restrict_to_known graph) fuel node level temp st =
        dfs graph fuel node level temp st := by
  intro fuel
  induction fuel with
  | zero => intro node level temp st; rfl
  | succ fuel ih =>
      intro node level temp st
      simp only [dfs]
      by_cases hmem : node ∈ temp
      · rw [if_pos hmem, if_pos hmem]
      · rw [if_neg hmem, if_neg hmem]
        by_cases hvis : node ∈ st.visited
        · rw [if_pos hvis, if_pos hvis]
        · rw [if_neg hvis, if_neg hvis]
          have hfold :
              (depsOf (restrict_to_known graph) node).foldlM
                (fun s dep =>
                  if dep ∈ ids (restrict_to_known graph) then
                    dfs (restrict_to_known graph) fuel dep (level + 1)
                      (temp ++ [node]) s
                  else
                    .ok s) st =
              (depsOf graph node).foldlM
                (fun s dep =>
                  if dep ∈ ids graph then
                    dfs graph fuel dep (level + 1) (temp ++ [node]) s
                  else
                    .ok s) st := by
            rw [depsOf_restrict_to_known]
            rw [foldlM_filter_mem (fun d => d ∈ ids graph)]
            refine foldlM_congr_fn _ _ _ _ ?_
            intro x _ s
            by_cases hx : x ∈ ids graph
            · rw [if_pos hx, if_pos hx,
                if_pos (by rwa [ids_restrict_to_known]), ih]
            · rw [if_neg hx, if_neg hx]
          rw [hfold]

/-- `resolve_graph` ignores unregistered dependency entries entirely. -/
lemma resolve_graph_restrict_to_known (graph : List (String × List String)) :
    resolve_graph (restrict_to_known graph) = resolve_graph graph := by
  unfold resolve_graph
  rw [ids_restrict_to_known]
  have hlen : (restrict_to_known graph).length = graph.length := by
    unfold restrict_to_known
    rw [List.length_map]
  have hfold :
      (ids graph).foldlM
        (fun s task_id =>
          if task_id ∈ s.visited then
            .ok s
          else
            dfs (restrict_to_known graph) ((restrict_to_known graph).length + 1)
              task_id 0 [] s) (⟨[], []⟩ : DfsState) =
      (ids graph).foldlM
        (fun s task_id =>
          if task_id ∈ s.visited then
            .ok s
          else
            dfs graph (graph.length + 1) task_id 0 [] s)
        (⟨[], []⟩ : DfsState) := by
    refine foldlM_congr_fn _ _ _ _ ?_
    intro x _ s
    by_cases hv : x ∈ s.visited
    · rw [if_pos hv, if_pos hv]
    · rw [if_neg hv, if_neg hv, hlen, dfs_restrict_to_known]
  rw [hfold]

/-- Registered task definitions with unknown dependency entries deleted. -/
def filter_unknown_dependencies (tasks : List (String × TaskDefinition)) :
    List (String × TaskDefinition) :=
  tasks.map fun t => (t.1, { t.2 with
    dependencies := t.2.dependencies.filter fun d =>
      decide (d ∈ tasks.map Prod.fst) })

/-- C8 amended: a `dependencies` entry that names no registered task id is
silently ignored — deleting all such entries leaves the result of
`resolve_dependencies` unchanged (no `UnknownDependencyError` exists in the
code; leveling proceeds as if the entry were absent). -/
theorem resolve_dependencies_ignores_unknown_dependencies
    (tasks : List (String × TaskDefinition)) :
    resolve_dependencies (filter_unknown_dependencies tasks) =
      resolve_dependencies tasks := by
  have hids : ids (tasks.map fun t => (t.1, t.2.dependencies)) =
      tasks.map Prod.fst := by
    unfold ids
    rw [List.map_map]
    rfl
  have hmap : (filter_unknown_dependencies tasks).map
        (fun t => (t.1, t.2.dependencies)) =
      restrict_to_known (tasks.map fun t => (t.1, t.2.dependencies)) := by
    unfold filter_unknown_dependencies restrict_to_known
    simp only [List.map_map, Function.comp, hids]
    rfl
  unfold resolve_dependencies
  rw [hmap, resolve_graph_restrict_to_known]
